import Mathlib

/-!
Verification of the node execution model of the `tis100` simulator
(`src/main.rs`).  The Rust code is shallowly embedded: the `i16`
registers become `Int` with explicit two's-complement wrapping at the
16-bit boundary where the Rust arithmetic can overflow, panics
(`unimplemented!`, out-of-bounds indexing) become an explicit error
result, and the `Display` implementation becomes a pure function to
`String`.
-/

/-- Rust `i16::clamp(lo, hi)` (`main.rs:118`): pin a value into `[lo, hi]`. -/
def clampI (x lo hi : Int) : Int :=
  if x < lo then lo else if x > hi then hi else x

/-- Two's-complement wrapping of an exact integer result into the `i16`
range `[-32768, 32767]`, the release-mode semantics of Rust `i16`
addition, subtraction and negation when the exact result overflows. -/
def wrap16 (x : Int) : Int :=
  (x + 32768) % 65536 - 32768

/-- Rust `enum Port` (`main.rs:6`): communication channel selectors. -/
inductive Port where
  | Left
  | Right
  | Up
  | Down
  | Any
  | Last
deriving DecidableEq

/-- Rust `enum Value` (`main.rs:28`): a literal number or a port reference. -/
inductive Value where
  | Number (num : Int)
  | Port (p : Port)
deriving DecidableEq

/-- Rust `enum Opcode` (`main.rs:51`): the five node instructions. -/
inductive Opcode where
  | Add (val : Value)
  | Sub (val : Value)
  | Swap
  | Save
  | Negate
deriving DecidableEq

/-- The two ways `Node::step` can panic: the unguarded `self.opcodes[self.pc]`
indexing (`main.rs:100`) and the `unimplemented!()` reached when an
Add/Sub operand is a `Value::Port` (`main.rs:107`). -/
inductive StepError where
  | indexOutOfRange
  | unsupportedOperand
deriving DecidableEq

/-- Rust `struct Node` (`main.rs:84`): `acc`/`bak` are `i16` registers,
`opcodes` the program, `pc` the current instruction index. -/
structure Node where
  acc : Int
  bak : Int
  opcodes : List Opcode
  pc : Nat
deriving DecidableEq

/-- The control-flow advance at the end of `Node::step` (`main.rs:128-133`):
`pc += 1`, wrapping to `0` when the end of the program is reached. -/
def Node.advance (n : Node) : Node :=
  if n.pc + 1 ≥ n.opcodes.length then { n with pc := 0 } else { n with pc := n.pc + 1 }

/-- Rust `Node::step` (`main.rs:99-134`), embedded imperatively: the result
is the node state at exit, paired with `some e` when the Rust code panics
at that point (the state at a panic is the state reached so far: both
panic sites are hit before any field mutation).  The `println!()` on
`main.rs:125` is I/O and has no effect on the state. -/
def Node.stepRun (n : Node) : Node × Option StepError :=
  match n.opcodes[n.pc]? with
  | none => (n, some .indexOutOfRange)
  | some (.Add val) =>
    match val with
    | .Number num => (({ n with acc := clampI (wrap16 (n.acc + num)) (-999) 999 }).advance, none)
    | .Port _ => (n, some .unsupportedOperand)
  | some (.Sub val) =>
    match val with
    | .Number num => (({ n with acc := clampI (wrap16 (n.acc - num)) (-999) 999 }).advance, none)
    | .Port _ => (n, some .unsupportedOperand)
  | some .Swap => (({ n with acc := n.bak, bak := n.acc }).advance, none)
  | some .Save => (({ n with bak := n.acc }).advance, none)
  | some .Negate => (({ n with acc := wrap16 (-n.acc) }).advance, none)

/-- Rust `Node::step` as a fallible transition: `ok` with the new state on
normal exit, `error` when the Rust code panics. -/
def Node.step (n : Node) : Except StepError Node :=
  match n.stepRun with
  | (n', none) => .ok n'
  | (_, some e) => .error e

/-- Rust `struct Cpu` (`main.rs:139`): the `[Node; 4]` array embedded as
four fields in index order. -/
structure Cpu where
  nodes0 : Node
  nodes1 : Node
  nodes2 : Node
  nodes3 : Node
deriving DecidableEq

/-- Index access into the `nodes` array of the `Cpu`. -/
def Cpu.node (c : Cpu) : Fin 4 → Node
  | ⟨0, _⟩ => c.nodes0
  | ⟨1, _⟩ => c.nodes1
  | ⟨2, _⟩ => c.nodes2
  | ⟨3, _⟩ => c.nodes3

/-- Rust `Cpu::step` (`main.rs:145-149`): `for node in self.nodes.iter_mut()
{ node.step(); }` — each node stepped once, in index order 0,1,2,3, a
panic propagating immediately (fail-fast). -/
def Cpu.step (c : Cpu) : Except StepError Cpu :=
  match c.nodes0.step with
  | .error e => .error e
  | .ok a =>
    match c.nodes1.step with
    | .error e => .error e
    | .ok b =>
      match c.nodes2.step with
      | .error e => .error e
      | .ok d =>
        match c.nodes3.step with
        | .error e => .error e
        | .ok e4 => .ok { nodes0 := a, nodes1 := b, nodes2 := d, nodes3 := e4 }

/-- Iterated `Node::step`: `stepN k n` performs `k` consecutive calls,
propagating a panic. -/
def stepN : Nat → Node → Except StepError Node
  | 0, n => .ok n
  | k + 1, n =>
    match n.step with
    | .error e => .error e
    | .ok n' => stepN k n'

/-- Iterated `Node::step` instrumented with the trace of executed
instructions: before each call the instruction at the current `pc` (the
one `Node::step` is about to execute) is recorded. -/
def stepNTrace : Nat → Node → Except StepError (List Opcode × Node)
  | 0, n => .ok ([], n)
  | k + 1, n =>
    match n.opcodes[n.pc]? with
    | none => .error .indexOutOfRange
    | some op =>
      match n.step with
      | .error e => .error e
      | .ok n' =>
        match stepNTrace k n' with
        | .error e => .error e
        | .ok (t, m) => .ok (op :: t, m)

instance {ε α : Type} [DecidableEq ε] [DecidableEq α] : DecidableEq (Except ε α) := fun x y =>
  match x, y with
  | .ok a, .ok b =>
    if h : a = b then .isTrue (by rw [h]) else .isFalse (fun hc => by cases hc; exact h rfl)
  | .error a, .error b =>
    if h : a = b then .isTrue (by rw [h]) else .isFalse (fun hc => by cases hc; exact h rfl)
  | .ok _, .error _ => .isFalse (fun hc => by cases hc)
  | .error _, .ok _ => .isFalse (fun hc => by cases hc)

/-- True unless the opcode is an Add/Sub whose operand is a port reference:
exactly the opcodes `Node::step` executes without hitting
`unimplemented!()`. -/
def Opcode.isLit : Opcode → Bool
  | .Add (.Port _) => false
  | .Sub (.Port _) => false
  | _ => true

/-- Every Add/Sub operand in the program is a literal. -/
def allLit (l : List Opcode) : Bool :=
  l.all Opcode.isLit

/-- Debug rendering `{:?}` of a `Port` (`main.rs:43`). -/
def Port.str : Port → String
  | .Left => "Left"
  | .Right => "Right"
  | .Up => "Up"
  | .Down => "Down"
  | .Any => "Any"
  | .Last => "Last"

/-- Rust `impl Display for Value` (`main.rs:36-47`). -/
def Value.str : Value → String
  | .Number num => toString num
  | .Port p => p.str

/-- Rust `impl Display for Opcode` (`main.rs:69-79`). -/
def Opcode.str : Opcode → String
  | .Add val => "ADD " ++ val.str
  | .Sub val => "SUB " ++ val.str
  | .Swap => "SWP"
  | .Save => "SAV"
  | .Negate => "NEG"

/-- Rust `{:width$}` on a string argument: left-align, pad with spaces to
`w`, never truncate. -/
def padRight (s : String) (w : Nat) : String :=
  s ++ String.mk (List.replicate (w - s.length) ' ')

/-- Rust `{:w}` on an integer argument: right-align, pad with spaces to
`w`, never truncate. -/
def padLeft (s : String) (w : Nat) : String :=
  String.mk (List.replicate (w - s.length) ' ') ++ s

/-- `node_padding` of `Cpu`'s Display (`main.rs:158`): six spaces. -/
def nodePadding : String :=
  String.mk (List.replicate 6 ' ')

/-- The horizontal rule segment `"-".repeat(node_width)` with
`node_width = 22` (`main.rs:155`). -/
def dashes : String :=
  String.mk (List.replicate 22 '-')

/-- The `+----+      +----+` separator line (`main.rs:165-167`). -/
def headerLine : String :=
  "+" ++ dashes ++ "+" ++ nodePadding ++ "+" ++ dashes ++ "+\n"

/-- One register cell (`main.rs:173-185`): `|`, then
`" ACC: {:4} BAK: {:4}"` left-padded to width 22, then `|` and the
inter-node padding. -/
def regCell (nd : Node) : String :=
  "|" ++ padRight (" ACC: " ++ padLeft (toString nd.acc) 4 ++ " BAK: " ++ padLeft (toString nd.bak) 4) 22 ++ "|" ++ nodePadding

/-- One instruction cell (`main.rs:197-222`): `|`, the `"> "` marker when
`pc == instr` else two spaces, the opcode's display (or a space when the
program has no instruction at this slot) padded to width 20, then `|` and
the inter-node padding. -/
def opCell (nd : Node) (i : Nat) : String :=
  "|" ++ (if nd.pc = i then "> " else "  ") ++
    (match nd.opcodes[i]? with
     | some op => padRight op.str 20
     | none => padRight " " 20) ++ "|" ++ nodePadding

/-- The register line of one display row: the two nodes' register cells
and a newline (`main.rs:171-189`). -/
def regLine (ln rn : Node) : String :=
  regCell ln ++ regCell rn ++ "\n"

/-- One instruction line of a display row: the two nodes' cells for slot
`i` and a newline (`main.rs:197-224`). -/
def instrLine (ln rn : Node) (i : Nat) : String :=
  opCell ln i ++ opCell rn i ++ "\n"

/-- One display row (`main.rs:163-234`): header, register line, barrier,
then the `for instr in 0..6` loop unrolled — exactly six instruction
slots are rendered — then the closing header and a blank line. -/
def rowRender (ln rn : Node) : String :=
  headerLine ++ regLine ln rn ++ headerLine ++
    instrLine ln rn 0 ++ instrLine ln rn 1 ++ instrLine ln rn 2 ++
    instrLine ln rn 3 ++ instrLine ln rn 4 ++ instrLine ln rn 5 ++
    headerLine ++ "\n"

/-- Rust `impl Display for Cpu` (`main.rs:152-238`): row 0 shows nodes 0
and 1, row 1 shows nodes 2 and 3 (`node_index = row * columns + col`). -/
def Cpu.render (c : Cpu) : String :=
  rowRender c.nodes0 c.nodes1 ++ rowRender c.nodes2 c.nodes3

/-- `t` occurs as a contiguous substring of `s`. -/
def Occurs (t s : String) : Prop :=
  ∃ u v : List Char, s.data = u ++ t.data ++ v

/-- Boolean check that `t` is a prefix of `s`. -/
def isPrefB : List Char → List Char → Bool
  | [], _ => true
  | _ :: _, [] => false
  | a :: t, b :: s => a == b && isPrefB t s

/-- Boolean substring check: `t` occurs contiguously in `s`. -/
def occB (t : List Char) : List Char → Bool
  | [] => t.isEmpty
  | c :: s => isPrefB t (c :: s) || occB t s

/-- The register/pc invariant of the spec: both registers in `[-999, 999]`
and the program counter a valid index into the program. -/
def Node.invB (n : Node) : Bool :=
  decide (-999 ≤ n.acc) && decide (n.acc ≤ 999) &&
    decide (-999 ≤ n.bak) && decide (n.bak ≤ 999) &&
    decide (n.pc < n.opcodes.length)

/-- The `Default` node of the Rust code: zero registers, empty program. -/
def defNode : Node :=
  ⟨0, 0, [], 0⟩

/-- A node about to add a small literal. -/
def c1WitA : Node :=
  ⟨5, 0, [.Add (.Number 7)], 0⟩

/-- A node about to subtract a small literal. -/
def c1WitS : Node :=
  ⟨5, 0, [.Sub (.Number 9)], 0⟩

/-- A node whose pending addition overflows `i16`: `999 + 32767` exceeds
`i16::MAX`. -/
def c1Cex : Node :=
  ⟨999, 0, [.Add (.Number 32767)], 0⟩

/-- A node satisfying the register/pc invariant. -/
def c2Wit : Node :=
  ⟨998, -5, [.Add (.Number 100), .Negate], 0⟩

/-- A grid of four one-instruction `Swap` nodes. -/
def c3Wit : Cpu :=
  ⟨⟨0, 0, [.Swap], 0⟩, ⟨0, 0, [.Swap], 0⟩, ⟨0, 0, [.Swap], 0⟩, ⟨0, 0, [.Swap], 0⟩⟩

/-- A two-instruction node starting at pc 0. -/
def c4Wit : Node :=
  ⟨0, 0, [.Save, .Negate], 0⟩

/-- A one-instruction node whose only instruction has a channel operand. -/
def c4Cex : Node :=
  ⟨0, 0, [.Add (.Port .Left)], 0⟩

/-- A node whose current instruction is `Add(Channel(Left))`. -/
def c5Wit : Node :=
  ⟨0, 0, [.Add (.Port .Left)], 0⟩

/-- A grid whose first node has a one-instruction program. -/
def c6Wit : Cpu :=
  ⟨⟨3, 4, [.Add (.Number 1)], 0⟩, defNode, defNode, defNode⟩

/-- A grid whose first node has a seven-instruction program: the seventh
instruction, `Sub(Literal(77))`, is beyond the six rendered slots. -/
def c6Cex : Cpu :=
  ⟨⟨0, 0, [.Swap, .Swap, .Swap, .Swap, .Swap, .Swap, .Sub (.Number 77)], 0⟩,
    defNode, defNode, defNode⟩

/-- A node with an empty program. -/
def c7Wit : Node :=
  ⟨7, 8, [], 3⟩

/-- A grid of four nodes with distinct single-instruction programs. -/
def c8Wit : Cpu :=
  ⟨⟨1, 2, [.Save], 0⟩, ⟨3, 4, [.Negate], 0⟩, ⟨5, 6, [.Swap], 0⟩, ⟨7, 8, [.Add (.Number 2)], 0⟩⟩

/-- A node whose one-instruction program is `[Swap]`, so two consecutive
steps both execute `Swap`. -/
def c9Wit : Node :=
  ⟨17, -4, [.Swap], 0⟩

/-- A node with nonzero registers whose current instruction has a channel
operand. -/
def c10Wit : Node :=
  ⟨41, 42, [.Swap, .Sub (.Port .Up)], 1⟩

theorem clampI_lb (x lo hi : Int) (h : lo ≤ hi) : lo ≤ clampI x lo hi := by
  unfold clampI; split
  · omega
  · split <;> omega

theorem clampI_ub (x lo hi : Int) (h : lo ≤ hi) : clampI x lo hi ≤ hi := by
  unfold clampI; split
  · omega
  · split <;> omega

theorem wrap16_eq_self {x : Int} (h1 : -32768 ≤ x) (h2 : x ≤ 32767) : wrap16 x = x := by
  unfold wrap16
  have hm : (x + 32768) % 65536 = x + 32768 := Int.emod_eq_of_lt (by omega) (by omega)
  omega

theorem advance_acc (n : Node) : n.advance.acc = n.acc := by
  unfold Node.advance; split <;> rfl

theorem advance_bak (n : Node) : n.advance.bak = n.bak := by
  unfold Node.advance; split <;> rfl

theorem advance_opcodes (n : Node) : n.advance.opcodes = n.opcodes := by
  unfold Node.advance; split <;> rfl

theorem advance_pc_mod (n : Node) (h : n.pc < n.opcodes.length) :
    n.advance.pc = (n.pc + 1) % n.opcodes.length := by
  unfold Node.advance; split
  · have he : n.pc + 1 = n.opcodes.length := by omega
    simp [he, Nat.mod_self]
  · show n.pc + 1 = (n.pc + 1) % n.opcodes.length
    exact (Nat.mod_eq_of_lt (by omega)).symm

theorem stepRun_oob {n : Node} (h : n.opcodes[n.pc]? = none) :
    n.stepRun = (n, some .indexOutOfRange) := by
  unfold Node.stepRun; rw [h]

theorem stepRun_add_num {n : Node} {num : Int}
    (h : n.opcodes[n.pc]? = some (.Add (.Number num))) :
    n.stepRun = (({ n with acc := clampI (wrap16 (n.acc + num)) (-999) 999 }).advance, none) := by
  unfold Node.stepRun; rw [h]

theorem stepRun_sub_num {n : Node} {num : Int}
    (h : n.opcodes[n.pc]? = some (.Sub (.Number num))) :
    n.stepRun = (({ n with acc := clampI (wrap16 (n.acc - num)) (-999) 999 }).advance, none) := by
  unfold Node.stepRun; rw [h]

theorem stepRun_add_port {n : Node} {p : Port}
    (h : n.opcodes[n.pc]? = some (.Add (.Port p))) :
    n.stepRun = (n, some .unsupportedOperand) := by
  unfold Node.stepRun; rw [h]

theorem stepRun_sub_port {n : Node} {p : Port}
    (h : n.opcodes[n.pc]? = some (.Sub (.Port p))) :
    n.stepRun = (n, some .unsupportedOperand) := by
  unfold Node.stepRun; rw [h]

theorem stepRun_swap {n : Node} (h : n.opcodes[n.pc]? = some .Swap) :
    n.stepRun = (({ n with acc := n.bak, bak := n.acc }).advance, none) := by
  unfold Node.stepRun; rw [h]

theorem stepRun_save {n : Node} (h : n.opcodes[n.pc]? = some .Save) :
    n.stepRun = (({ n with bak := n.acc }).advance, none) := by
  unfold Node.stepRun; rw [h]

theorem stepRun_negate {n : Node} (h : n.opcodes[n.pc]? = some .Negate) :
    n.stepRun = (({ n with acc := wrap16 (-n.acc) }).advance, none) := by
  unfold Node.stepRun; rw [h]

theorem step_eq_of_run_ok {n m : Node} (h : n.stepRun = (m, none)) : n.step = .ok m := by
  unfold Node.step; rw [h]

theorem step_eq_of_run_err {n m : Node} {e : StepError} (h : n.stepRun = (m, some e)) :
    n.step = .error e := by
  unfold Node.step; rw [h]

theorem step_ok_run {n n' : Node} (h : n.step = .ok n') : n.stepRun = (n', none) := by
  unfold Node.step at h
  rcases hr : n.stepRun with ⟨m, o⟩
  rw [hr] at h
  cases o with
  | none => cases h; rfl
  | some e => cases h

theorem pc_lt_of_some {n : Node} {op : Opcode} (h : n.opcodes[n.pc]? = some op) :
    n.pc < n.opcodes.length := by
  by_contra hge
  rw [List.getElem?_eq_none (by omega)] at h
  cases h

theorem stepRun_ok_inv {n n' : Node} (h : n.stepRun = (n', none)) :
    n.pc < n.opcodes.length ∧ n'.opcodes = n.opcodes ∧
      n'.pc = (n.pc + 1) % n.opcodes.length := by
  cases hop : n.opcodes[n.pc]? with
  | none => rw [stepRun_oob hop] at h; cases h
  | some op =>
    have hlt := pc_lt_of_some hop
    refine ⟨hlt, ?_⟩
    cases op with
    | Add val =>
      cases val with
      | Number num =>
        rw [stepRun_add_num hop] at h
        injection h with h1 _
        subst h1
        exact ⟨advance_opcodes _, advance_pc_mod _ hlt⟩
      | Port p => rw [stepRun_add_port hop] at h; cases h
    | Sub val =>
      cases val with
      | Number num =>
        rw [stepRun_sub_num hop] at h
        injection h with h1 _
        subst h1
        exact ⟨advance_opcodes _, advance_pc_mod _ hlt⟩
      | Port p => rw [stepRun_sub_port hop] at h; cases h
    | Swap =>
      rw [stepRun_swap hop] at h
      injection h with h1 _
      subst h1
      exact ⟨advance_opcodes _, advance_pc_mod _ hlt⟩
    | Save =>
      rw [stepRun_save hop] at h
      injection h with h1 _
      subst h1
      exact ⟨advance_opcodes _, advance_pc_mod _ hlt⟩
    | Negate =>
      rw [stepRun_negate hop] at h
      injection h with h1 _
      subst h1
      exact ⟨advance_opcodes _, advance_pc_mod _ hlt⟩

theorem step_ok_shape {n n' : Node} (h : n.step = .ok n') :
    n.pc < n.opcodes.length ∧ n'.opcodes = n.opcodes ∧
      n'.pc = (n.pc + 1) % n.opcodes.length :=
  stepRun_ok_inv (step_ok_run h)

theorem step_ok_of_isLit {n : Node} (hlt : n.pc < n.opcodes.length)
    (hl : Opcode.isLit n.opcodes[n.pc] = true) : ∃ n', n.step = .ok n' := by
  have hop : n.opcodes[n.pc]? = some n.opcodes[n.pc] := List.getElem?_eq_getElem hlt
  cases hc : n.opcodes[n.pc] with
  | Add val =>
    cases val with
    | Number num => exact ⟨_, step_eq_of_run_ok (stepRun_add_num (by rw [hop, hc]))⟩
    | Port p => rw [hc] at hl; simp [Opcode.isLit] at hl
  | Sub val =>
    cases val with
    | Number num => exact ⟨_, step_eq_of_run_ok (stepRun_sub_num (by rw [hop, hc]))⟩
    | Port p => rw [hc] at hl; simp [Opcode.isLit] at hl
  | Swap => exact ⟨_, step_eq_of_run_ok (stepRun_swap (by rw [hop, hc]))⟩
  | Save => exact ⟨_, step_eq_of_run_ok (stepRun_save (by rw [hop, hc]))⟩
  | Negate => exact ⟨_, step_eq_of_run_ok (stepRun_negate (by rw [hop, hc]))⟩

theorem occurs_self (t : String) : Occurs t t :=
  ⟨[], [], by simp⟩

theorem occurs_left {t s : String} (r : String) (h : Occurs t s) : Occurs t (s ++ r) := by
  obtain ⟨u, v, hu⟩ := h
  exact ⟨u, v ++ r.data, by simp [String.data_append, hu]⟩

theorem occurs_right {t s : String} (r : String) (h : Occurs t s) : Occurs t (r ++ s) := by
  obtain ⟨u, v, hu⟩ := h
  exact ⟨r.data ++ u, v, by simp [String.data_append, hu]⟩

theorem occB_nil (s : List Char) : occB [] s = true := by
  induction s with
  | nil => rfl
  | cons c s ih => simp [occB, isPrefB, ih]

theorem isPrefB_append (t r : List Char) : isPrefB t (t ++ r) = true := by
  induction t with
  | nil => rfl
  | cons a t ih => simp [isPrefB, ih]

theorem occB_self (t v : List Char) : occB t (t ++ v) = true := by
  cases t with
  | nil => exact occB_nil v
  | cons a t' =>
    show (isPrefB (a :: t') ((a :: t') ++ v) || occB (a :: t') (t' ++ v)) = true
    rw [isPrefB_append]
    simp

theorem occB_append (u t v : List Char) : occB t (u ++ (t ++ v)) = true := by
  induction u with
  | nil => simpa using occB_self t v
  | cons c u' ih =>
    show (isPrefB t (c :: (u' ++ (t ++ v))) || occB t (u' ++ (t ++ v))) = true
    rw [ih]
    simp

theorem occurs_imp_occB {t s : String} (h : Occurs t s) : occB t.data s.data = true := by
  obtain ⟨u, v, hu⟩ := h
  rw [hu, List.append_assoc]
  exact occB_append u t.data v

theorem occurs_instrLine_left (ln rn : Node) (i : Nat) :
    Occurs (opCell ln i) (instrLine ln rn i) := by
  unfold instrLine
  exact occurs_left _ (occurs_left _ (occurs_self _))

theorem occurs_instrLine_right (ln rn : Node) (i : Nat) :
    Occurs (opCell rn i) (instrLine ln rn i) := by
  unfold instrLine
  exact occurs_left _ (occurs_right _ (occurs_self _))

theorem occurs_regLine_left (ln rn : Node) :
    Occurs (regCell ln) (regLine ln rn) := by
  unfold regLine
  exact occurs_left _ (occurs_left _ (occurs_self _))

theorem occurs_regLine_right (ln rn : Node) :
    Occurs (regCell rn) (regLine ln rn) := by
  unfold regLine
  exact occurs_left _ (occurs_right _ (occurs_self _))

theorem occurs_row_reg {t : String} (ln rn : Node) (h : Occurs t (regLine ln rn)) :
    Occurs t (rowRender ln rn) := by
  unfold rowRender
  exact occurs_left _ (occurs_left _ (occurs_left _ (occurs_left _ (occurs_left _
    (occurs_left _ (occurs_left _ (occurs_left _ (occurs_left _ (occurs_right _ h)))))))))

theorem occurs_row_instr {t : String} (ln rn : Node) (i : Nat) (h6 : i < 6)
    (h : Occurs t (instrLine ln rn i)) : Occurs t (rowRender ln rn) := by
  unfold rowRender
  interval_cases i
  · exact occurs_left _ (occurs_left _ (occurs_left _ (occurs_left _ (occurs_left _
      (occurs_left _ (occurs_left _ (occurs_right _ h)))))))
  · exact occurs_left _ (occurs_left _ (occurs_left _ (occurs_left _ (occurs_left _
      (occurs_left _ (occurs_right _ h))))))
  · exact occurs_left _ (occurs_left _ (occurs_left _ (occurs_left _ (occurs_left _
      (occurs_right _ h)))))
  · exact occurs_left _ (occurs_left _ (occurs_left _ (occurs_left _ (occurs_right _ h))))
  · exact occurs_left _ (occurs_left _ (occurs_left _ (occurs_right _ h)))
  · exact occurs_left _ (occurs_left _ (occurs_right _ h))

theorem occurs_render_row0 {t : String} (c : Cpu)
    (h : Occurs t (rowRender c.nodes0 c.nodes1)) : Occurs t c.render := by
  unfold Cpu.render
  exact occurs_left _ h

theorem occurs_render_row1 {t : String} (c : Cpu)
    (h : Occurs t (rowRender c.nodes2 c.nodes3)) : Occurs t c.render := by
  unfold Cpu.render
  exact occurs_right _ h

theorem invB_advance_of (m : Node) (h1 : -999 ≤ m.acc) (h2 : m.acc ≤ 999)
    (h3 : -999 ≤ m.bak) (h4 : m.bak ≤ 999) (hlt : m.pc < m.opcodes.length) :
    m.advance.invB = true := by
  have hpc : m.advance.pc < m.advance.opcodes.length := by
    rw [advance_opcodes, advance_pc_mod _ hlt]
    exact Nat.mod_lt _ (by omega)
  simp [Node.invB, advance_acc, advance_bak, h1, h2, h3, h4, hpc]

theorem cpu_step_ok_inv {c c' : Cpu} (h : c.step = .ok c') :
    c.nodes0.step = .ok c'.nodes0 ∧ c.nodes1.step = .ok c'.nodes1 ∧
      c.nodes2.step = .ok c'.nodes2 ∧ c.nodes3.step = .ok c'.nodes3 := by
  unfold Cpu.step at h
  cases h0 : c.nodes0.step with
  | error e => simp only [h0] at h; exact Except.noConfusion h
  | ok a =>
    simp only [h0] at h
    cases h1 : c.nodes1.step with
    | error e => simp only [h1] at h; exact Except.noConfusion h
    | ok b =>
      simp only [h1] at h
      cases h2 : c.nodes2.step with
      | error e => simp only [h2] at h; exact Except.noConfusion h
      | ok d =>
        simp only [h2] at h
        cases h3 : c.nodes3.step with
        | error e => simp only [h3] at h; exact Except.noConfusion h
        | ok e4 =>
          simp only [h3] at h
          injection h with h'
          rw [← h']
          exact ⟨rfl, rfl, rfl, rfl⟩

theorem stepNTrace_stepN : ∀ (k : Nat) (n : Node) (t : List Opcode) (m : Node),
    stepNTrace k n = .ok (t, m) → stepN k n = .ok m := by
  intro k
  induction k with
  | zero =>
    intro n t m h
    simp only [stepNTrace] at h
    injection h with h'
    injection h' with _ hb
    rw [← hb]
    rfl
  | succ k ih =>
    intro n t m h
    cases hop : n.opcodes[n.pc]? with
    | none => simp only [stepNTrace, hop] at h; exact Except.noConfusion h
    | some op =>
      cases hs : n.step with
      | error e => simp only [stepNTrace, hop, hs] at h; exact Except.noConfusion h
      | ok n1 =>
        cases htr : stepNTrace k n1 with
        | error e => simp only [stepNTrace, hop, hs, htr] at h; exact Except.noConfusion h
        | ok p =>
          obtain ⟨t', m'⟩ := p
          simp only [stepNTrace, hop, hs, htr] at h
          injection h with h'
          injection h' with _ hb
          show stepN (k + 1) n = .ok m
          simp only [stepN, hs]
          rw [← hb]
          exact ih n1 t' m' htr

theorem stepNTrace_drop : ∀ (k : Nat) (n : Node), allLit n.opcodes = true →
    n.pc + k = n.opcodes.length → n.pc < n.opcodes.length →
    ∃ m, stepNTrace k n = .ok (n.opcodes.drop n.pc, m) ∧ m.pc = 0 ∧
      m.opcodes = n.opcodes := by
  intro k
  induction k with
  | zero => intro n _ hlen hlt; omega
  | succ k ih =>
    intro n hal hlen hlt
    have hop : n.opcodes[n.pc]? = some n.opcodes[n.pc] := List.getElem?_eq_getElem hlt
    have hl : Opcode.isLit n.opcodes[n.pc] = true :=
      List.all_eq_true.mp hal _ (List.getElem_mem _)
    obtain ⟨n1, hs⟩ := step_ok_of_isLit hlt hl
    obtain ⟨_, hops, hpc⟩ := step_ok_shape hs
    have hdrop : n.opcodes.drop n.pc = n.opcodes[n.pc] :: n.opcodes.drop (n.pc + 1) :=
      List.drop_eq_getElem_cons hlt
    by_cases hend : n.pc + 1 = n.opcodes.length
    · have hk : k = 0 := by omega
      subst hk
      have hpc1 : n1.pc = 0 := by rw [hpc, hend, Nat.mod_self]
      refine ⟨n1, ?_, hpc1, hops⟩
      simp only [stepNTrace, hop, hs]
      rw [hdrop, hend, List.drop_length]
    · have hpc1 : n1.pc = n.pc + 1 := by rw [hpc, Nat.mod_eq_of_lt (by omega)]
      have hal1 : allLit n1.opcodes = true := by rw [hops]; exact hal
      have hlen1 : n1.pc + k = n1.opcodes.length := by rw [hpc1, hops]; omega
      have hlt1 : n1.pc < n1.opcodes.length := by rw [hpc1, hops]; omega
      obtain ⟨m, htr, hm0, hmops⟩ := ih n1 hal1 hlen1 hlt1
      refine ⟨m, ?_, hm0, by rw [hmops, hops]⟩
      simp only [stepNTrace, hop, hs, htr]
      rw [hdrop]
      have : n1.opcodes.drop n1.pc = n.opcodes.drop (n.pc + 1) := by rw [hops, hpc1]
      rw [this]

/-- C1 (amended): for a Node whose current instruction is `Add(Literal(n))`
(resp. `Sub(Literal(n))`) with accumulator `a`, provided the exact sum
`a + n` (resp. difference `a - n`) lies within the `i16` range
`[-32768, 32767]`, after `step()` the accumulator equals
`clamp(a + n, -999, 999)` (resp. `clamp(a - n, -999, 999)`).  Outside
that range the `i16` arithmetic wraps before the clamp is applied, so the
original unrestricted claim fails. -/
theorem c1_add_sub_clamp (nd : Node) (num : Int) :
    (nd.opcodes[nd.pc]? = some (.Add (.Number num)) →
      -32768 ≤ nd.acc + num → nd.acc + num ≤ 32767 →
      (nd.step).map Node.acc = .ok (clampI (nd.acc + num) (-999) 999)) ∧
    (nd.opcodes[nd.pc]? = some (.Sub (.Number num)) →
      -32768 ≤ nd.acc - num → nd.acc - num ≤ 32767 →
      (nd.step).map Node.acc = .ok (clampI (nd.acc - num) (-999) 999)) := by
  constructor
  · intro hop hb1 hb2
    rw [step_eq_of_run_ok (stepRun_add_num hop)]
    simp [Except.map, advance_acc, wrap16_eq_self hb1 hb2]
  · intro hop hb1 hb2
    rw [step_eq_of_run_ok (stepRun_sub_num hop)]
    simp [Except.map, advance_acc, wrap16_eq_self hb1 hb2]

/-- Witness for C1: concrete in-range addition `5 + 7` and subtraction
`5 - 9`. -/
theorem c1_add_sub_clamp_witness :
    (Node.step c1WitA).map Node.acc = .ok (clampI (c1WitA.acc + 7) (-999) 999) ∧
    (Node.step c1WitS).map Node.acc = .ok (clampI (c1WitS.acc - 9) (-999) 999) :=
  ⟨(c1_add_sub_clamp c1WitA 7).1 (by decide) (by decide) (by decide),
   (c1_add_sub_clamp c1WitS 9).2 (by decide) (by decide) (by decide)⟩

/-- Counterexample to C1 as stated: with accumulator `999` and literal
`32767` (both valid `i16` values) the step yields `-999`, not
`clamp(999 + 32767, -999, 999) = 999`: the `i16` addition overflows and
wraps before the clamp. -/
theorem c1_overflow_cex :
    (Node.step c1Cex).map Node.acc = .ok (-999) ∧
    (Node.step c1Cex).map Node.acc ≠ .ok (clampI (999 + 32767) (-999) 999) := by
  decide

/-- C2: for a Node with a non-empty program all of whose Add/Sub operands
are literals, the invariant (accumulator and backup in `[-999, 999]`,
`pc` a valid program index) is preserved by `step()`, for every
instruction kind. -/
theorem c2_inv_preserved (n : Node) (hne : n.opcodes ≠ [])
    (hlit : allLit n.opcodes = true) (hinv : n.invB = true) :
    (n.step).map Node.invB = .ok true := by
  simp only [Node.invB, Bool.and_eq_true, decide_eq_true_eq] at hinv
  obtain ⟨⟨⟨⟨ha1, ha2⟩, hb1⟩, hb2⟩, hpc⟩ := hinv
  have hop : n.opcodes[n.pc]? = some n.opcodes[n.pc] := List.getElem?_eq_getElem hpc
  cases hc : n.opcodes[n.pc] with
  | Add val =>
    cases val with
    | Number num =>
      rw [step_eq_of_run_ok (stepRun_add_num (by rw [hop, hc]))]
      simp only [Except.map]
      have hiv := invB_advance_of { n with acc := clampI (wrap16 (n.acc + num)) (-999) 999 }
        (clampI_lb _ (-999) 999 (by omega)) (clampI_ub _ (-999) 999 (by omega)) hb1 hb2 hpc
      rw [hiv]
    | Port p =>
      exfalso
      have := List.all_eq_true.mp hlit _ (List.getElem_mem hpc)
      rw [hc] at this
      simp [Opcode.isLit] at this
  | Sub val =>
    cases val with
    | Number num =>
      rw [step_eq_of_run_ok (stepRun_sub_num (by rw [hop, hc]))]
      simp only [Except.map]
      have hiv := invB_advance_of { n with acc := clampI (wrap16 (n.acc - num)) (-999) 999 }
        (clampI_lb _ (-999) 999 (by omega)) (clampI_ub _ (-999) 999 (by omega)) hb1 hb2 hpc
      rw [hiv]
    | Port p =>
      exfalso
      have := List.all_eq_true.mp hlit _ (List.getElem_mem hpc)
      rw [hc] at this
      simp [Opcode.isLit] at this
  | Swap =>
    rw [step_eq_of_run_ok (stepRun_swap (by rw [hop, hc]))]
    simp only [Except.map]
    have hiv := invB_advance_of { n with acc := n.bak, bak := n.acc } hb1 hb2 ha1 ha2 hpc
    rw [hiv]
  | Save =>
    rw [step_eq_of_run_ok (stepRun_save (by rw [hop, hc]))]
    simp only [Except.map]
    have hiv := invB_advance_of { n with bak := n.acc } ha1 ha2 ha1 ha2 hpc
    rw [hiv]
  | Negate =>
    rw [step_eq_of_run_ok (stepRun_negate (by rw [hop, hc]))]
    simp only [Except.map]
    have hw : wrap16 (-n.acc) = -n.acc := wrap16_eq_self (by omega) (by omega)
    have hiv := invB_advance_of { n with acc := wrap16 (-n.acc) }
      (by show -999 ≤ wrap16 (-n.acc); rw [hw]; omega)
      (by show wrap16 (-n.acc) ≤ 999; rw [hw]; omega) hb1 hb2 hpc
    rw [hiv]

/-- Witness for C2: a node with registers in range and a two-instruction
literal program keeps the invariant over a step. -/
theorem c2_inv_preserved_witness : (Node.step c2Wit).map Node.invB = .ok true :=
  c2_inv_preserved c2Wit (by decide) (by decide) (by decide)

/-- C5: a Node whose current instruction is Add or Sub with a channel
operand fails with the UnsupportedOperand error on `step()` (the
`unimplemented!()` panic), and the state at the failure point is the
unmodified starting state — no default value is applied to the
accumulator. -/
theorem c5_unsupported_operand (n : Node) (p : Port)
    (h : n.opcodes[n.pc]? = some (.Add (.Port p)) ∨
      n.opcodes[n.pc]? = some (.Sub (.Port p))) :
    n.step = .error .unsupportedOperand ∧
      n.stepRun = (n, some .unsupportedOperand) := by
  cases h with
  | inl h => exact ⟨step_eq_of_run_err (stepRun_add_port h), stepRun_add_port h⟩
  | inr h => exact ⟨step_eq_of_run_err (stepRun_sub_port h), stepRun_sub_port h⟩

/-- Witness for C5: a node whose instruction is `Add(Channel(Left))`. -/
theorem c5_unsupported_operand_witness :
    Node.step c5Wit = .error .unsupportedOperand ∧
      c5Wit.stepRun = (c5Wit, some .unsupportedOperand) :=
  c5_unsupported_operand c5Wit .Left (Or.inl (by decide))

/-- C7: stepping a Node whose program is empty reaches the unguarded
indexing `opcodes[pc]` and fails with IndexOutOfRange; it is not a
no-op. -/
theorem c7_empty_program (n : Node) (h : n.opcodes = []) :
    n.step = .error .indexOutOfRange ∧ ∀ m : Node, n.step ≠ .ok m := by
  have he : n.step = .error .indexOutOfRange :=
    step_eq_of_run_err (stepRun_oob (by simp [h]))
  exact ⟨he, fun m hm => by rw [he] at hm; exact Except.noConfusion hm⟩

/-- Witness for C7: a concrete node with an empty program. -/
theorem c7_empty_program_witness :
    Node.step c7Wit = .error .indexOutOfRange ∧ ∀ m : Node, Node.step c7Wit ≠ .ok m :=
  c7_empty_program c7Wit (by decide)

/-- C9: if two consecutive `step()` calls both execute `Swap`, the
`(accumulator, backup)` pair afterwards equals its value before the first
call. -/
theorem c9_swap_involution (n n1 n2 : Node)
    (h1 : n.opcodes[n.pc]? = some .Swap) (hs1 : n.step = .ok n1)
    (h2 : n1.opcodes[n1.pc]? = some .Swap) (hs2 : n1.step = .ok n2) :
    n2.acc = n.acc ∧ n2.bak = n.bak := by
  have hr1 := step_ok_run hs1
  rw [stepRun_swap h1] at hr1
  injection hr1 with e1 _
  subst e1
  have hr2 := step_ok_run hs2
  rw [stepRun_swap h2] at hr2
  injection hr2 with e2 _
  subst e2
  constructor
  · simp [advance_acc, advance_bak]
  · simp [advance_acc, advance_bak]

/-- Witness for C9: a node with program `[Swap]` executes `Swap` twice in
two steps (the pc wraps back to 0) and restores `(17, -4)`. -/
theorem c9_swap_involution_witness :
    (⟨17, -4, [Opcode.Swap], 0⟩ : Node).acc = c9Wit.acc ∧
      (⟨17, -4, [Opcode.Swap], 0⟩ : Node).bak = c9Wit.bak :=
  c9_swap_involution c9Wit ⟨-4, 17, [Opcode.Swap], 0⟩ ⟨17, -4, [Opcode.Swap], 0⟩
    (by decide) (by decide) (by decide) (by decide)

/-- C10: when `step()` fails because an Add/Sub operand is a channel, the
failure occurs before any state mutation: the node state at the panic
point has the same accumulator, backup and program counter as before the
call. -/
theorem c10_no_mutation_on_failure (n m : Node)
    (h : n.stepRun = (m, some .unsupportedOperand)) :
    m.acc = n.acc ∧ m.bak = n.bak ∧ m.pc = n.pc := by
  cases hop : n.opcodes[n.pc]? with
  | none =>
    rw [stepRun_oob hop] at h
    injection h with _ h2
    injection h2 with h3
    exact StepError.noConfusion h3
  | some op =>
    cases op with
    | Add val =>
      cases val with
      | Number num =>
        rw [stepRun_add_num hop] at h
        injection h with _ h2
        exact Option.noConfusion h2
      | Port p =>
        rw [stepRun_add_port hop] at h
        injection h with h1 _
        subst h1
        exact ⟨rfl, rfl, rfl⟩
    | Sub val =>
      cases val with
      | Number num =>
        rw [stepRun_sub_num hop] at h
        injection h with _ h2
        exact Option.noConfusion h2
      | Port p =>
        rw [stepRun_sub_port hop] at h
        injection h with h1 _
        subst h1
        exact ⟨rfl, rfl, rfl⟩
    | Swap =>
      rw [stepRun_swap hop] at h
      injection h with _ h2
      exact Option.noConfusion h2
    | Save =>
      rw [stepRun_save hop] at h
      injection h with _ h2
      exact Option.noConfusion h2
    | Negate =>
      rw [stepRun_negate hop] at h
      injection h with _ h2
      exact Option.noConfusion h2

/-- Witness for C10: a node stopped at `Sub(Channel(Up))` keeps
`acc = 41`, `bak = 42`, `pc = 1`. -/
theorem c10_no_mutation_on_failure_witness :
    c10Wit.acc = c10Wit.acc ∧ c10Wit.bak = c10Wit.bak ∧ c10Wit.pc = c10Wit.pc :=
  c10_no_mutation_on_failure c10Wit c10Wit (by decide)

/-- C3: when `Cpu::step` returns successfully, every one of the four nodes
has been stepped exactly once — node `k`'s result state is exactly the
result of one `Node::step` on its prior state (the loop steps them in
index order 0,1,2,3, each completing before the next, per the embedding
of the loop) — and each node's program counter has advanced by exactly
one position modulo its program length. -/
theorem c3_grid_step (c c' : Cpu) (h : c.step = .ok c') (k : Fin 4) :
    (c.node k).step = .ok (c'.node k) ∧
      (c'.node k).pc = ((c.node k).pc + 1) % (c.node k).opcodes.length := by
  obtain ⟨h0, h1, h2, h3⟩ := cpu_step_ok_inv h
  fin_cases k
  · exact ⟨h0, (step_ok_shape h0).2.2⟩
  · exact ⟨h1, (step_ok_shape h1).2.2⟩
  · exact ⟨h2, (step_ok_shape h2).2.2⟩
  · exact ⟨h3, (step_ok_shape h3).2.2⟩

/-- Witness for C3: the all-`[Swap]` grid steps back to itself (zero
registers swap to zero, pc wraps 0 → 0), and node 0's pc advanced by one
modulo its program length. -/
theorem c3_grid_step_witness :
    (c3Wit.node 0).step = .ok (c3Wit.node 0) ∧
      (c3Wit.node 0).pc = ((c3Wit.node 0).pc + 1) % (c3Wit.node 0).opcodes.length :=
  c3_grid_step c3Wit c3Wit (by decide) 0

/-- C4 (amended): a Node with program length `n ≥ 1`, program counter 0,
and all Add/Sub operands literal, returns to program counter 0 after
exactly `n` calls to `step()`, having executed the instructions
`program[0], ..., program[n-1]` exactly once each, in order (recorded by
the instrumented iteration `stepNTrace`).  Without the literal-operand
restriction the run aborts at the first channel operand instead. -/
theorem c4_wraparound (n : Node) (h0 : n.pc = 0) (h1 : 1 ≤ n.opcodes.length)
    (hal : allLit n.opcodes = true) :
    ∃ m, stepNTrace n.opcodes.length n = .ok (n.opcodes, m) ∧
      stepN n.opcodes.length n = .ok m ∧ m.pc = 0 := by
  obtain ⟨m, htr, hm0, _⟩ := stepNTrace_drop n.opcodes.length n hal (by omega) (by omega)
  rw [h0, List.drop_zero] at htr
  exact ⟨m, htr, stepNTrace_stepN _ _ _ _ htr, hm0⟩

/-- Witness for C4: the two-instruction program `[Save, Negate]` is
traced in order and the pc returns to 0 after two steps. -/
theorem c4_wraparound_witness :
    ∃ m, stepNTrace c4Wit.opcodes.length c4Wit = .ok (c4Wit.opcodes, m) ∧
      stepN c4Wit.opcodes.length c4Wit = .ok m ∧ m.pc = 0 :=
  c4_wraparound c4Wit (by decide) (by decide) (by decide)

/-- Counterexample to C4 as stated: a length-1 program whose instruction
is `Add(Channel(Left))` satisfies the claim's hypotheses (length ≥ 1,
pc = 0) but after 1 call to `step()` the run has aborted — the pc has not
returned to 0. -/
theorem c4_port_cex :
    (stepN c4Cex.opcodes.length c4Cex).map Node.pc ≠ .ok 0 := by
  decide

/-- C6 (amended): the rendered display of the grid shows, for each of the
four nodes, its accumulator and backup (the register cell occurs in the
render) and, for programs of length at most 6, every instruction of its
program (the cell of each instruction index occurs in the render), the
cell carrying the `'>'` marker exactly when the node's program counter
equals that index.  Only the first six instruction slots are rendered, so
the original claim's "for programs of every length" fails. -/
theorem c6_render_shows (c : Cpu) (k : Fin 4) (i : Nat)
    (hlen : (c.node k).opcodes.length ≤ 6) (hi : i < (c.node k).opcodes.length) :
    Occurs (regCell (c.node k)) c.render ∧
    Occurs (opCell (c.node k) i) c.render ∧
    opCell (c.node k) i =
      "|" ++ (if (c.node k).pc = i then "> " else "  ") ++
        padRight (Opcode.str ((c.node k).opcodes[i])) 20 ++ "|" ++ nodePadding := by
  have h6 : i < 6 := by omega
  refine ⟨?_, ?_, ?_⟩
  · fin_cases k
    · exact occurs_render_row0 _ (occurs_row_reg _ _ (occurs_regLine_left _ _))
    · exact occurs_render_row0 _ (occurs_row_reg _ _ (occurs_regLine_right _ _))
    · exact occurs_render_row1 _ (occurs_row_reg _ _ (occurs_regLine_left _ _))
    · exact occurs_render_row1 _ (occurs_row_reg _ _ (occurs_regLine_right _ _))
  · fin_cases k
    · exact occurs_render_row0 _ (occurs_row_instr _ _ i h6 (occurs_instrLine_left _ _ _))
    · exact occurs_render_row0 _ (occurs_row_instr _ _ i h6 (occurs_instrLine_right _ _ _))
    · exact occurs_render_row1 _ (occurs_row_instr _ _ i h6 (occurs_instrLine_left _ _ _))
    · exact occurs_render_row1 _ (occurs_row_instr _ _ i h6 (occurs_instrLine_right _ _ _))
  · unfold opCell
    rw [List.getElem?_eq_getElem hi]

/-- Witness for C6: the one-instruction grid `c6Wit`, node 0, slot 0. -/
theorem c6_render_shows_witness :
    Occurs (regCell (c6Wit.node 0)) c6Wit.render ∧
    Occurs (opCell (c6Wit.node 0) 0) c6Wit.render ∧
    opCell (c6Wit.node 0) 0 =
      "|" ++ (if (c6Wit.node 0).pc = 0 then "> " else "  ") ++
        padRight (Opcode.str ((c6Wit.node 0).opcodes[0])) 20 ++ "|" ++ nodePadding :=
  c6_render_shows c6Wit 0 0 (by decide) (by decide)

set_option maxRecDepth 40000 in
/-- Counterexample to C6 as stated: node 0 of `c6Cex` has a seventh
instruction, `Sub(Literal(77))`, yet its display text `"SUB 77"` occurs
nowhere in the render — the display does not show the full instruction
list for programs of every length. -/
theorem c6_truncation_cex :
    c6Cex.nodes0.opcodes[6]? = some (.Sub (.Number 77)) ∧
      ¬ Occurs (Opcode.str (.Sub (.Number 77))) c6Cex.render :=
  ⟨by decide, fun h => absurd (occurs_imp_occB h) (by decide)⟩

/-- C8: `Node::step` never changes the program, and a successful
`Cpu::step` gives each node a new state computed by one `Node::step` from
that node's own prior state alone — stepping one node leaves every other
node's state unaffected. -/
theorem c8_frame :
    (∀ n n' : Node, n.step = .ok n' → n'.opcodes = n.opcodes) ∧
    (∀ c c' : Cpu, c.step = .ok c' → ∀ k : Fin 4, (c.node k).step = .ok (c'.node k)) := by
  constructor
  · intro n n' h
    exact (step_ok_shape h).2.1
  · intro c c' h k
    obtain ⟨h0, h1, h2, h3⟩ := cpu_step_ok_inv h
    fin_cases k
    · exact h0
    · exact h1
    · exact h2
    · exact h3

/-- Witness for C8: node 1 of `c8Wit` keeps its program over a step, and
a full grid step maps node 1 by exactly its own step. -/
theorem c8_frame_witness :
    (⟨-3, 4, [Opcode.Negate], 0⟩ : Node).opcodes = c8Wit.nodes1.opcodes ∧
      (c8Wit.node 1).step = .ok ((Cpu.mk ⟨1, 1, [.Save], 0⟩ ⟨-3, 4, [.Negate], 0⟩
        ⟨6, 5, [.Swap], 0⟩ ⟨9, 8, [.Add (.Number 2)], 0⟩).node 1) :=
  ⟨c8_frame.1 c8Wit.nodes1 ⟨-3, 4, [Opcode.Negate], 0⟩ (by decide),
   c8_frame.2 c8Wit (Cpu.mk ⟨1, 1, [.Save], 0⟩ ⟨-3, 4, [.Negate], 0⟩
     ⟨6, 5, [.Swap], 0⟩ ⟨9, 8, [.Add (.Number 2)], 0⟩) (by decide) 1⟩




